import Mathlib

/-!
Verification development for the play-p2p repository: a shallow embedding of
the pure logic of its six example drivers (utils, ipfs-kad, ipfs-pubsub,
file-sharing, chat) together with theorems settling the specification claims.

External library functions (rust-libp2p multiaddr parsing, pnet key parsing,
protobuf key encoding, futures combinators) are modelled from their documented
behaviour; each such definition carries a doc comment saying what it models.
-/

namespace PlayP2p

/-! ## Character-level string splitting and joining

Rust's `str::split('/')` keeps empty components and always yields at least one
component; `Vec::join("/")` interleaves the separator.  We model both directly
on `List Char`. -/

/-- Model of Rust `str::split(sep)` collected into a vector: splits on every
occurrence of the separator character, keeping empty components; the result is
always non-empty. -/
def splitOnChar (sep : Char) : List Char → List (List Char)
  | [] => [[]]
  | c :: rest =>
    if c = sep then [] :: splitOnChar sep rest
    else
      match splitOnChar sep rest with
      | [] => [[c]]
      | p :: ps => (c :: p) :: ps

/-- Model of Rust `Vec::join(sep)` for a vector of strings: concatenates the
components with the separator character between consecutive components. -/
def joinChar (sep : Char) : List (List Char) → List Char
  | [] => []
  | [p] => p
  | p :: ps => p ++ sep :: joinChar sep ps

theorem splitOnChar_ne_nil (sep : Char) (s : List Char) : splitOnChar sep s ≠ [] := by
  cases s with
  | nil => simp [splitOnChar]
  | cons c rest =>
    simp only [splitOnChar]
    split
    · simp
    · split <;> simp

theorem not_mem_of_mem_splitOnChar (sep : Char) (s : List Char) :
    ∀ p ∈ splitOnChar sep s, sep ∉ p := by
  induction s with
  | nil => intro p hp; simp [splitOnChar] at hp; simp [hp]
  | cons c rest ih =>
    intro p hp
    rcases hq : splitOnChar sep rest with _ | ⟨q, qs⟩
    · exact absurd hq (splitOnChar_ne_nil sep rest)
    simp only [splitOnChar, hq] at hp
    by_cases hc : c = sep
    · simp only [if_pos hc] at hp
      rcases List.mem_cons.mp hp with h | h
      · simp [h]
      · exact ih p (by rw [hq]; exact h)
    · simp only [if_neg hc] at hp
      rcases List.mem_cons.mp hp with h | h
      · subst h
        intro hmem
        rcases List.mem_cons.mp hmem with h1 | h1
        · exact hc h1.symm
        · exact ih q (by rw [hq]; exact List.mem_cons_self q qs) h1
      · exact ih p (by rw [hq]; exact List.mem_cons_of_mem q h)

theorem splitOnChar_append (sep : Char) (p s : List Char) (hp : sep ∉ p)
    (q : List Char) (qs : List (List Char)) (hs : splitOnChar sep s = q :: qs) :
    splitOnChar sep (p ++ s) = (p ++ q) :: qs := by
  induction p with
  | nil => simpa using hs
  | cons c cs ih =>
    have hc : c ≠ sep := fun h => hp (by simp [h])
    have hcs : sep ∉ cs := fun h => hp (List.mem_cons_of_mem c h)
    have ih2 := ih hcs
    simp only [List.cons_append, splitOnChar, if_neg hc, List.append_eq, ih2]

theorem splitOnChar_of_not_mem (sep : Char) (p : List Char) (hp : sep ∉ p) :
    splitOnChar sep p = [p] := by
  have h := splitOnChar_append sep p [] hp [] [] (by simp [splitOnChar])
  simpa using h

/-- Splitting undoes joining, provided the component list is non-empty and no
component contains the separator (as is the case for components that came out
of a split). -/
theorem splitOnChar_joinChar (sep : Char) (ps : List (List Char)) (hne : ps ≠ [])
    (hfree : ∀ p ∈ ps, sep ∉ p) : splitOnChar sep (joinChar sep ps) = ps := by
  induction ps with
  | nil => exact absurd rfl hne
  | cons p ps ih =>
    cases ps with
    | nil =>
      simp only [joinChar]
      exact splitOnChar_of_not_mem sep p (hfree p (List.mem_cons_self p []))
    | cons q qs =>
      have hrest : splitOnChar sep (joinChar sep (q :: qs)) = q :: qs :=
        ih (by simp) (fun r hr => hfree r (List.mem_cons_of_mem p hr))
      have hsep : splitOnChar sep (sep :: joinChar sep (q :: qs)) =
          [] :: q :: qs := by
        simp [splitOnChar, hrest]
      have := splitOnChar_append sep p (sep :: joinChar sep (q :: qs))
        (hfree p (List.mem_cons_self p _)) [] (q :: qs) hsep
      simpa [joinChar] using this

/-! ## Multiaddr model

A structured network address (rust-libp2p `Multiaddr`) is modelled as a list of
protocol segments.  The model covers the single-value protocols used by this
repository (`ip4`, `tcp`, `udp`, `dns`, `dns4`, `dns6`, `dnsaddr`, `p2p`). -/

/-- One protocol segment of a multiaddr. -/
inductive Protocol where
  | ip4 (a b c d : Nat)
  | tcp (port : Nat)
  | udp (port : Nat)
  | dns (name : String)
  | dns4 (name : String)
  | dns6 (name : String)
  | dnsaddr (name : String)
  | p2p (peerId : String)
  deriving DecidableEq, Repr

/-- A multiaddr is a sequence of protocol segments. -/
abbrev Multiaddr := List Protocol

def isDigitChar (c : Char) : Bool := '0' ≤ c && c ≤ '9'

/-- Numeric value of a decimal digit list (most significant first). -/
def digitsToNat : List Char → Nat
  | [] => 0
  | c :: rest => (c.toNat - '0'.toNat) * 10 ^ rest.length + digitsToNat rest

/-- Model of Rust `u8::from_str` as used for one IPv4 octet: non-empty, all
decimal digits, value at most 255, and (as in the Rust standard library) no
leading zero unless the octet is exactly "0". -/
def parseOctet (v : List Char) : Option Nat :=
  if v ≠ [] ∧ v.all isDigitChar ∧ digitsToNat v ≤ 255 ∧
      (v.head? = some '0' → v = ['0']) then
    some (digitsToNat v)
  else none

/-- Model of Rust `Ipv4Addr::from_str`: four dot-separated octets. -/
def parseIp4 (v : List Char) : Option Protocol :=
  match splitOnChar '.' v with
  | [a, b, c, d] =>
    match parseOctet a, parseOctet b, parseOctet c, parseOctet d with
    | some a, some b, some c, some d => some (Protocol.ip4 a b c d)
    | _, _, _, _ => none
  | _ => none

/-- Model of Rust `u16::from_str` for a port number: non-empty, all decimal
digits, value at most 65535 (leading zeros allowed, as in `u16::from_str`). -/
def parsePort (v : List Char) : Option Nat :=
  if v ≠ [] ∧ v.all isDigitChar ∧ digitsToNat v ≤ 65535 then
    some (digitsToNat v)
  else none

/-- Base58btc alphabet check: alphanumeric ASCII except the ambiguous
characters 0, O, I and l. -/
def isBase58Char (c : Char) : Bool :=
  (isDigitChar c || ('a' ≤ c && c ≤ 'z') || ('A' ≤ c && c ≤ 'Z')) &&
    c ≠ '0' && c ≠ 'O' && c ≠ 'I' && c ≠ 'l'

/-- Model of the textual PeerId check performed when parsing a `/p2p/...`
segment: a non-empty base58btc string.  (The multihash structure check done
after base58 decoding is abstracted to the alphabet check; every identifier
used in this development is a genuine base58btc PeerId.) -/
def validPeerId (v : List Char) : Bool :=
  !v.isEmpty && v.all isBase58Char

/-- Parse one protocol segment from its textual tag and its single value
component, modelling the tag dispatch of rust-libp2p multiaddr parsing for the
protocols in this model.  The current tag for the peer-identity protocol is
`p2p`; the deprecated tag `ipfs` is NOT accepted here. -/
def protoOfTag (tag v : List Char) : Option Protocol :=
  if tag = "ip4".data then parseIp4 v
  else if tag = "tcp".data then (parsePort v).map Protocol.tcp
  else if tag = "udp".data then (parsePort v).map Protocol.udp
  else if tag = "dns".data then some (Protocol.dns ⟨v⟩)
  else if tag = "dns4".data then some (Protocol.dns4 ⟨v⟩)
  else if tag = "dns6".data then some (Protocol.dns6 ⟨v⟩)
  else if tag = "dnsaddr".data then some (Protocol.dnsaddr ⟨v⟩)
  else if tag = "p2p".data then
    if validPeerId v then some (Protocol.p2p ⟨v⟩) else none
  else none

/-- Parse an alternating tag/value component list into protocol segments. -/
def parseProtocols : List (List Char) → Option (List Protocol)
  | [] => some []
  | tag :: v :: rest =>
    match protoOfTag tag v with
    | some p => (parseProtocols rest).map (p :: ·)
    | none => none
  | _ :: [] => none

/-- Model of rust-libp2p `Multiaddr::from_str`: the string must begin with a
slash (i.e. the first split component is empty); the remaining components are
parsed as alternating protocol tags and values. -/
def Multiaddr.fromStr (s : String) : Option Multiaddr :=
  match splitOnChar '/' s.data with
  | [] :: parts => parseProtocols parts
  | _ => none

/-! ## utils.rs: `parse_legacy_multiaddr` and `strip_peer_id` -/

/-- The slash-separated-component substitution performed inside
`parse_legacy_multiaddr`: a component equal to `ipfs` becomes `p2p`. -/
def substIpfs (part : List Char) : List Char :=
  if part = "ipfs".data then "p2p".data else part

/-- The sanitization step of `parse_legacy_multiaddr` in `utils.rs`: split the
text on every slash, replace each component equal to `ipfs` by `p2p`, and join
the components back with slashes. -/
def sanitize (text : String) : String :=
  ⟨joinChar '/' ((splitOnChar '/' text.data).map substIpfs)⟩

/-- `strip_peer_id` from `utils.rs`: pop the last protocol segment; if it is a
`p2p` segment it is left off, otherwise it is pushed back (an empty address is
unchanged). -/
def strip_peer_id (addr : Multiaddr) : Multiaddr :=
  match addr.getLast? with
  | some (Protocol.p2p _) => addr.dropLast
  | _ => addr

/-- `parse_legacy_multiaddr` from `utils.rs`: sanitize the text (replace
`ipfs` components by `p2p`), parse it as a multiaddr, and strip a trailing
PeerId segment; a parse failure propagates as `none`. -/
def parse_legacy_multiaddr (text : String) : Option Multiaddr :=
  (Multiaddr.fromStr (sanitize text)).map strip_peer_id

/-! ## Spec-side formulation for claim C1 -/

/-- Parse tag/value components accepting the deprecated `ipfs` tag (in tag
position only) as an alias of the current `p2p` tag.  This is the spec's
reading of a valid address "written with the deprecated protocol tag". -/
def parseProtocolsLegacy : List (List Char) → Option (List Protocol)
  | [] => some []
  | tag :: v :: rest =>
    match protoOfTag (if tag = "ipfs".data then "p2p".data else tag) v with
    | some p => (parseProtocolsLegacy rest).map (p :: ·)
    | none => none
  | _ :: [] => none

/-- Spec-side parse of a multiaddr string in which the deprecated `ipfs` tag
may stand for the current `p2p` tag. -/
def legacyFromStr (s : String) : Option Multiaddr :=
  match splitOnChar '/' s.data with
  | [] :: parts => parseProtocolsLegacy parts
  | _ => none

/-- A protocol segment whose string value is the word `ipfs` (such segments
are the ones the sanitization step rewrites even though they are not tags). -/
def valueIsIpfs : Protocol → Bool
  | Protocol.dns n => n = "ipfs"
  | Protocol.dns4 n => n = "ipfs"
  | Protocol.dns6 n => n = "ipfs"
  | Protocol.dnsaddr n => n = "ipfs"
  | Protocol.p2p n => n = "ipfs"
  | _ => false

theorem protoOfTag_ipfs_value (tag : List Char) (p : Protocol)
    (h : protoOfTag tag ("ipfs".data) = some p) : valueIsIpfs p = true := by
  unfold protoOfTag at h
  split_ifs at h <;>
    first
      | (cases h; rfl)
      | (rw [show parseIp4 "ipfs".data = none from rfl] at h; simp at h)
      | (rw [show parsePort "ipfs".data = none from rfl] at h; simp at h)

theorem protoOfTag_substIpfs (tag v : List Char) (p : Protocol)
    (h : protoOfTag tag v = some p) (hval : valueIsIpfs p = false) :
    protoOfTag tag (substIpfs v) = some p := by
  by_cases hv : v = "ipfs".data
  · subst hv
    have := protoOfTag_ipfs_value tag p h
    rw [this] at hval
    cases hval
  · rw [substIpfs, if_neg hv]
    exact h

theorem parseProtocols_map_subst (parts : List (List Char)) (addr : List Protocol)
    (h : parseProtocolsLegacy parts = some addr)
    (hval : ∀ p ∈ addr, valueIsIpfs p = false) :
    parseProtocols (parts.map substIpfs) = some addr := by
  induction parts using parseProtocolsLegacy.induct generalizing addr with
  | case1 =>
    simp only [parseProtocolsLegacy] at h
    cases h
    simp [parseProtocols]
  | case2 tag v rest p hpt ih =>
    simp only [parseProtocolsLegacy, hpt] at h
    rcases hrest : parseProtocolsLegacy rest with _ | addr2
    · rw [hrest] at h; exact Option.noConfusion h
    · rw [hrest] at h
      have heq : p :: addr2 = addr := Option.some.inj h
      subst heq
      have hval2 : ∀ q ∈ addr2, valueIsIpfs q = false :=
        fun q hq => hval q (List.mem_cons_of_mem p hq)
      have hvalp : valueIsIpfs p = false := hval p (List.mem_cons_self p addr2)
      have hpt2 : protoOfTag (substIpfs tag) (substIpfs v) = some p := by
        rw [show substIpfs tag = (if tag = "ipfs".data then "p2p".data else tag) from rfl]
        exact protoOfTag_substIpfs _ v p hpt hvalp
      simp only [List.map_cons, parseProtocols, hpt2, ih addr2 hrest hval2]
      rfl
  | case3 tag v rest hpt =>
    simp only [parseProtocolsLegacy, hpt] at h
    exact Option.noConfusion h
  | case4 x =>
    simp only [parseProtocolsLegacy] at h
    exact Option.noConfusion h

/-- In components produced by a split, applying the `ipfs`-to-`p2p`
substitution never introduces a slash. -/
theorem substIpfs_slash_free (q : List Char) (hq : '/' ∉ q) : '/' ∉ substIpfs q := by
  unfold substIpfs
  split
  · decide
  · exact hq

theorem parse_legacy_multiaddr_eq (text : String) (addr : Multiaddr)
    (hparse : legacyFromStr text = some addr)
    (hval : ∀ p ∈ addr, valueIsIpfs p = false) :
    parse_legacy_multiaddr text = some (strip_peer_id addr) := by
  unfold legacyFromStr at hparse
  rcases hsplit : splitOnChar '/' text.data with _ | ⟨p0, parts⟩
  · exact absurd hsplit (splitOnChar_ne_nil _ _)
  rw [hsplit] at hparse
  cases p0 with
  | cons c cs => simp at hparse
  | nil =>
    simp only at hparse
    have hfree : ∀ p ∈ (([] : List Char) :: parts).map substIpfs, '/' ∉ p := by
      intro p hp
      rcases List.mem_map.mp hp with ⟨q, hq, rfl⟩
      exact substIpfs_slash_free q
        (not_mem_of_mem_splitOnChar '/' text.data q (hsplit ▸ hq))
    have hround := splitOnChar_joinChar '/' ((([] : List Char) :: parts).map substIpfs)
      (by simp) hfree
    unfold parse_legacy_multiaddr Multiaddr.fromStr sanitize
    rw [hsplit]
    rw [show (String.mk (joinChar '/' ((([] : List Char) :: parts).map substIpfs))).data
        = joinChar '/' ((([] : List Char) :: parts).map substIpfs) from rfl]
    rw [hround]
    simp only [List.map_cons, show substIpfs [] = [] from rfl]
    rw [parseProtocols_map_subst parts addr hparse hval]
    rfl

/-! ## ipfs-kad.rs: Kademlia configuration, PK record, event loop -/

/-- The Kademlia behaviour configuration of the DHT node, as set in
`ipfs-kad.rs`: `kad_cfg.set_query_timeout(Duration::from_secs(5 * 60))`. -/
structure KadConfig where
  queryTimeoutSecs : Nat

/-- The configuration value built in `main` of `ipfs-kad.rs`. -/
def ipfsKadConfig : KadConfig := { queryTimeoutSecs := 5 * 60 }

/-- A Kademlia record as built by `kad::Record::new` plus the field updates in
`ipfs-kad.rs` (`publisher`, `expires`).  Byte strings are lists of byte
values; instants are seconds since an arbitrary origin. -/
structure KadRecord where
  key : List Nat
  value : List Nat
  publisher : Option (List Nat)
  expires : Option Nat
  deriving DecidableEq, Repr

/-- Byte encoding of an ASCII string literal. -/
def strBytes (s : String) : List Nat := s.data.map Char.toNat

/-- Model of `libp2p::identity::PublicKey::encode_protobuf` for an ed25519
key: the protobuf message `PublicKey { Type = Ed25519 (= 1), Data = raw }`,
i.e. field-1 varint header `0x08 0x01` followed by the field-2 length-prefixed
bytes `0x12 <len> <raw>` (the raw ed25519 public key is 32 bytes, so its
length fits one varint byte). -/
def encode_protobuf_ed25519 (raw : List Nat) : List Nat :=
  [0x08, 0x01, 0x12, raw.length] ++ raw

/-- The record submitted by the `put-pk-record` command in `ipfs-kad.rs`:
key `"/pk/" ++ local_peer_id.to_bytes()`, value
`local_key.public().encode_protobuf()`, publisher the local PeerId, and
expiry `Instant::now() + 60` seconds. -/
def makePkRecord (peerIdBytes rawPublicKey : List Nat) (now : Nat) : KadRecord :=
  { key := strBytes "/pk/" ++ peerIdBytes
    value := encode_protobuf_ed25519 rawPublicKey
    publisher := some peerIdBytes
    expires := some (now + 60) }

/-- The quorum passed to `put_record` in `ipfs-kad.rs`:
`kad::Quorum::N(NonZeroUsize::new(3).unwrap())`. -/
def putPkRecordQuorum : Nat := 3

/-- The behaviour events the `ipfs-kad.rs` event loop matches on.  PeerIds in
results are abstract identifiers. -/
inductive KadLoopEvent where
  | getClosestPeersOk (peers : List Nat)
  | getClosestPeersTimeout
  | putRecordOk
  | putRecordErr (msg : String)
  | other
  deriving DecidableEq, Repr

/-- Outcome of a run of the `ipfs-kad.rs` event loop: the process either
returns successfully (with the closest peers, or from a record insert) or
terminates with a `bail!` error message. -/
inductive KadOutcome where
  | successPeers (peers : List Nat)
  | successPut
  | failure (msg : String)
  deriving DecidableEq, Repr

def msgNoClosestPeers : String := "Query finished with no closest peers."

def msgClosestPeersTimeout : String := "Query for closest peers timed out"

/-- The event loop at the bottom of `main` in `ipfs-kad.rs`, run over a finite
prefix of the swarm's event stream: a `GetClosestPeers(Ok)` result with an
empty peer set bails, a non-empty one returns success; a
`GetClosestPeers(Err(Timeout))` bails; `PutRecord(Ok)` returns success;
`PutRecord(Err)` bails; every other event is ignored and the loop continues.
`none` means the loop is still waiting for events. -/
def runKadLoop : List KadLoopEvent → Option KadOutcome
  | [] => none
  | KadLoopEvent.getClosestPeersOk peers :: _ =>
    if peers.isEmpty then some (KadOutcome.failure msgNoClosestPeers)
    else some (KadOutcome.successPeers peers)
  | KadLoopEvent.getClosestPeersTimeout :: _ =>
    some (KadOutcome.failure msgClosestPeersTimeout)
  | KadLoopEvent.putRecordOk :: _ => some KadOutcome.successPut
  | KadLoopEvent.putRecordErr msg :: _ =>
    some (KadOutcome.failure ("Failed to insert the PK record: " ++ msg))
  | KadLoopEvent.other :: rest => runKadLoop rest

/-- Events that can occur in a run of the `get-peers` command: since that
command starts no `put_record` query, no `PutRecord` result is ever
delivered. -/
def isGetPeersModeEvent : KadLoopEvent → Bool
  | KadLoopEvent.putRecordOk => false
  | KadLoopEvent.putRecordErr _ => false
  | _ => true

/-- Modelled from the spec: the intended outcome of the `get-peers` command as
a function of the first closest-peers query result in the event stream —
empty result set is an error, a timeout is a timeout error, a non-empty
result set is the only success. -/
def getPeersExpected : List KadLoopEvent → Option KadOutcome
  | [] => none
  | KadLoopEvent.getClosestPeersOk peers :: _ =>
    if peers.isEmpty then some (KadOutcome.failure msgNoClosestPeers)
    else some (KadOutcome.successPeers peers)
  | KadLoopEvent.getClosestPeersTimeout :: _ =>
    some (KadOutcome.failure msgClosestPeersTimeout)
  | _ :: rest => getPeersExpected rest

theorem runKadLoop_getPeers (events : List KadLoopEvent)
    (hmode : ∀ e ∈ events, isGetPeersModeEvent e = true) :
    runKadLoop events = getPeersExpected events ∧
    (∀ peers, runKadLoop events = some (KadOutcome.successPeers peers) → peers ≠ []) ∧
    runKadLoop events ≠ some KadOutcome.successPut := by
  induction events with
  | nil => refine ⟨rfl, ?_, ?_⟩ <;> intro h <;> simp [runKadLoop] at *
  | cons e rest ih =>
    have hrest : ∀ x ∈ rest, isGetPeersModeEvent x = true :=
      fun x hx => hmode x (List.mem_cons_of_mem e hx)
    have he : isGetPeersModeEvent e = true := hmode e (List.mem_cons_self e rest)
    cases e with
    | getClosestPeersOk peers =>
      by_cases hp : peers.isEmpty
      · refine ⟨by simp [runKadLoop, getPeersExpected, hp], ?_, ?_⟩
        · intro q hq
          simp [runKadLoop, hp] at hq
        · simp [runKadLoop, hp]
      · refine ⟨by simp [runKadLoop, getPeersExpected, hp], ?_, ?_⟩
        · intro q hq
          simp [runKadLoop, hp] at hq
          subst hq
          simpa [List.isEmpty_iff] using hp
        · simp [runKadLoop, hp]
    | getClosestPeersTimeout =>
      refine ⟨rfl, ?_, ?_⟩
      · intro q hq
        simp [runKadLoop] at hq
      · simp [runKadLoop]
    | putRecordOk => simp [isGetPeersModeEvent] at he
    | putRecordErr msg => simp [isGetPeersModeEvent] at he
    | other =>
      rcases ih hrest with ⟨h1, h2, h3⟩
      exact ⟨by simpa [runKadLoop, getPeersExpected] using h1,
        fun q hq => h2 q (by simpa [runKadLoop] using hq),
        by simpa [runKadLoop] using h3⟩

/-- Claim C1 counterexample: on the valid legacy address
`/dns/ipfs/tcp/4001/ipfs/<PeerId>` the claim predicts that the non-tag `dns`
value `ipfs` is left unchanged (result `/dns/ipfs/tcp/4001`), but
`parse_legacy_multiaddr` substitutes every slash-separated component equal to
`ipfs`, giving `/dns/p2p/tcp/4001`. -/
theorem claim_C1_counterexample :
    legacyFromStr "/dns/ipfs/tcp/4001/ipfs/QmNnooDu7bfjPFoTZYxMNLWUQJyrVwtbZg5gBMjTezGAJN" =
      some [Protocol.dns "ipfs", Protocol.tcp 4001,
        Protocol.p2p "QmNnooDu7bfjPFoTZYxMNLWUQJyrVwtbZg5gBMjTezGAJN"] ∧
    strip_peer_id [Protocol.dns "ipfs", Protocol.tcp 4001,
        Protocol.p2p "QmNnooDu7bfjPFoTZYxMNLWUQJyrVwtbZg5gBMjTezGAJN"] =
      [Protocol.dns "ipfs", Protocol.tcp 4001] ∧
    parse_legacy_multiaddr "/dns/ipfs/tcp/4001/ipfs/QmNnooDu7bfjPFoTZYxMNLWUQJyrVwtbZg5gBMjTezGAJN" =
      some [Protocol.dns "p2p", Protocol.tcp 4001] ∧
    ([Protocol.dns "p2p", Protocol.tcp 4001] : Multiaddr) ≠
      [Protocol.dns "ipfs", Protocol.tcp 4001] :=
  ⟨rfl, rfl, rfl, by decide⟩

/-- Claim C1 (amended): for every valid multiaddr string written with the
deprecated `ipfs` protocol tag in which the word `ipfs` does not also occur as
a protocol VALUE, `parse_legacy_multiaddr` returns the address obtained by
substituting the current `p2p` tag for the deprecated tag and removing a
trailing PeerId segment, all non-tag segments unchanged.  (The code
substitutes every slash-separated component equal to `ipfs`, so a value
component `ipfs` — e.g. a `dns` host named `ipfs` — is also rewritten; the
restriction excludes exactly those inputs.) -/
theorem claim_C1_parse_legacy (text : String) (addr : Multiaddr)
    (hparse : legacyFromStr text = some addr)
    (hval : ∀ p ∈ addr, valueIsIpfs p = false) :
    parse_legacy_multiaddr text = some (strip_peer_id addr) :=
  parse_legacy_multiaddr_eq text addr hparse hval

/-- Witness for claim C1: a concrete legacy bootstrap-style address. -/
theorem claim_C1_witness :
    legacyFromStr "/ip4/104.131.131.82/tcp/4001/ipfs/QmNnooDu7bfjPFoTZYxMNLWUQJyrVwtbZg5gBMjTezGAJN" =
      some [Protocol.ip4 104 131 131 82, Protocol.tcp 4001,
        Protocol.p2p "QmNnooDu7bfjPFoTZYxMNLWUQJyrVwtbZg5gBMjTezGAJN"] ∧
    (∀ p ∈ ([Protocol.ip4 104 131 131 82, Protocol.tcp 4001,
        Protocol.p2p "QmNnooDu7bfjPFoTZYxMNLWUQJyrVwtbZg5gBMjTezGAJN"] : Multiaddr),
      valueIsIpfs p = false) ∧
    parse_legacy_multiaddr "/ip4/104.131.131.82/tcp/4001/ipfs/QmNnooDu7bfjPFoTZYxMNLWUQJyrVwtbZg5gBMjTezGAJN" =
      some (strip_peer_id [Protocol.ip4 104 131 131 82, Protocol.tcp 4001,
        Protocol.p2p "QmNnooDu7bfjPFoTZYxMNLWUQJyrVwtbZg5gBMjTezGAJN"]) :=
  ⟨rfl, by decide, claim_C1_parse_legacy _ _ rfl (by decide)⟩

/-- Claim C2: in a run of the `get-peers` command (whose event stream contains
no `PutRecord` results), the event loop fails with an error when the
closest-peers query completes with an empty peer set, fails with a timeout
error when the query times out, and returns success only when the completed
query yields a non-empty peer set. -/
theorem claim_C2_getPeers (events : List KadLoopEvent)
    (hmode : ∀ e ∈ events, isGetPeersModeEvent e = true) :
    runKadLoop events = getPeersExpected events ∧
    (∀ peers, runKadLoop events = some (KadOutcome.successPeers peers) → peers ≠ []) ∧
    runKadLoop events ≠ some KadOutcome.successPut :=
  runKadLoop_getPeers events hmode

/-- Witness for claim C2: a run whose query times out after one ignored
event. -/
theorem claim_C2_witness :
    (∀ e ∈ [KadLoopEvent.other, KadLoopEvent.getClosestPeersTimeout],
      isGetPeersModeEvent e = true) ∧
    (runKadLoop [KadLoopEvent.other, KadLoopEvent.getClosestPeersTimeout] =
        getPeersExpected [KadLoopEvent.other, KadLoopEvent.getClosestPeersTimeout] ∧
      (∀ peers, runKadLoop [KadLoopEvent.other, KadLoopEvent.getClosestPeersTimeout] =
          some (KadOutcome.successPeers peers) → peers ≠ []) ∧
      runKadLoop [KadLoopEvent.other, KadLoopEvent.getClosestPeersTimeout] ≠
        some KadOutcome.successPut) :=
  ⟨by decide, claim_C2_getPeers _ (by decide)⟩

/-- Claim C5 counterexample: the record value submitted by `put-pk-record` is
`encode_protobuf` of the public key — 36 bytes for an ed25519 key — not the
raw 32-byte public key the claim describes. -/
theorem claim_C5_counterexample :
    (makePkRecord [42] (List.replicate 32 7) 0).value.length = 36 ∧
    ¬ (makePkRecord [42] (List.replicate 32 7) 0).value.length = 32 ∧
    (makePkRecord [42] (List.replicate 32 7) 0).value ≠ List.replicate 32 7 := by
  refine ⟨by decide, by decide, by decide⟩

/-- Claim C5 (amended): the record submitted by `put-pk-record` has key
`"/pk/"` bytes followed by the local PeerId bytes, value the protobuf
encoding of the local ed25519 public key (4 header bytes plus the 32 raw key
bytes, 36 bytes in all — not the bare 32-byte key), publisher the local
PeerId, expiry 60 seconds after creation, and the write uses a quorum of
exactly 3. -/
theorem claim_C5_pkRecord (peerIdBytes rawPublicKey : List Nat) (now : Nat)
    (hlen : rawPublicKey.length = 32) :
    (makePkRecord peerIdBytes rawPublicKey now).key = strBytes "/pk/" ++ peerIdBytes ∧
    (makePkRecord peerIdBytes rawPublicKey now).value = [8, 1, 18, 32] ++ rawPublicKey ∧
    (makePkRecord peerIdBytes rawPublicKey now).value.length = 36 ∧
    (makePkRecord peerIdBytes rawPublicKey now).publisher = some peerIdBytes ∧
    (makePkRecord peerIdBytes rawPublicKey now).expires = some (now + 60) ∧
    putPkRecordQuorum = 3 := by
  refine ⟨rfl, ?_, ?_, rfl, rfl, rfl⟩
  · simp [makePkRecord, encode_protobuf_ed25519, hlen]
  · simp [makePkRecord, encode_protobuf_ed25519, hlen]

/-- Witness for claim C5: a concrete 32-byte key. -/
theorem claim_C5_witness :
    (List.replicate 32 9 : List Nat).length = 32 ∧
    ((makePkRecord [1, 2] (List.replicate 32 9) 100).key =
        strBytes "/pk/" ++ [1, 2] ∧
      (makePkRecord [1, 2] (List.replicate 32 9) 100).value =
        [8, 1, 18, 32] ++ List.replicate 32 9 ∧
      (makePkRecord [1, 2] (List.replicate 32 9) 100).value.length = 36 ∧
      (makePkRecord [1, 2] (List.replicate 32 9) 100).publisher = some [1, 2] ∧
      (makePkRecord [1, 2] (List.replicate 32 9) 100).expires = some (100 + 60) ∧
      putPkRecordQuorum = 3) :=
  ⟨by decide, claim_C5_pkRecord [1, 2] (List.replicate 32 9) 100 (by decide)⟩

/-- Claim C6: the DHT node configures Kademlia with a query timeout of
exactly 5 minutes (300 seconds). -/
theorem claim_C6_queryTimeout : ipfsKadConfig.queryTimeoutSecs = 300 := rfl

/-! ## file-sharing.rs: the get and provide actions

The network event loop itself lives in the `file_sharing_network` module; the
front end in `file-sharing.rs` drives it through a client handle.  The front
end's control flow is modelled over the results the client delivers. -/

/-- Decidable equality for `Except`, so that runs of the get action can be
checked on concrete inputs. -/
def exceptDecEq {E A : Type} [DecidableEq E] [DecidableEq A] :
    DecidableEq (Except E A)
  | Except.ok a, Except.ok b =>
    if h : a = b then isTrue (by rw [h])
    else isFalse (fun hc => h (Except.ok.inj hc))
  | Except.ok _, Except.error _ => isFalse (fun hc => Except.noConfusion hc)
  | Except.error _, Except.ok _ => isFalse (fun hc => Except.noConfusion hc)
  | Except.error e, Except.error f =>
    if h : e = f then isTrue (by rw [h])
    else isFalse (fun hc => h (Except.error.inj hc))

instance {E A : Type} [DecidableEq E] [DecidableEq A] :
    DecidableEq (Except E A) := exceptDecEq

/-- Model of `futures::future::select_ok` over the request futures, with the
futures listed in completion order: the first future to complete with `Ok`
resolves the whole race with its payload and the remaining outcomes are
dropped; if every future completes with an error, the race resolves with the
last error; `none` for the (unused) empty race. -/
def selectOk {E A : Type} : List (Except E A) → Option (Except E A)
  | [] => none
  | Except.ok a :: _ => some (Except.ok a)
  | Except.error e :: rest =>
    match rest with
    | [] => some (Except.error e)
    | _ :: _ => selectOk rest

/-- The first successful payload in completion order, if any. -/
def firstOk {E A : Type} : List (Except E A) → Option A
  | [] => none
  | Except.ok a :: _ => some a
  | Except.error _ :: rest => firstOk rest

/-- The `CliAction::Get` arm of `main` in `file-sharing.rs`, as a function of
the provider set returned by `get_providers` and of the request outcomes (one
per provider, listed in completion order): an empty provider set is a
terminal error before any request is issued; otherwise one request per
provider is raced with `select_ok`, a failed race is mapped to the terminal
error `"None of the providers returned file."`, and a successful race's
payload is the exact byte string written to standard output (`.ok` payload of
the result). -/
def getAction (name : String) (providers : List Nat)
    (outcomes : List (Except String (List Nat))) : Except String (List Nat) :=
  if providers.isEmpty then
    Except.error ("Could not find provider for file " ++ name ++ ".")
  else
    match selectOk outcomes with
    | some (Except.ok fileContent) => Except.ok fileContent
    | _ => Except.error "None of the providers returned file."

theorem selectOk_all_errors {E A : Type} (outcomes : List (Except E A))
    (hne : outcomes ≠ []) (herr : ∀ o ∈ outcomes, ∃ e, o = Except.error e) :
    ∃ e, selectOk outcomes = some (Except.error e) := by
  induction outcomes with
  | nil => exact absurd rfl hne
  | cons o rest ih =>
    rcases herr o (List.mem_cons_self o rest) with ⟨e, rfl⟩
    cases rest with
    | nil => exact ⟨e, by simp [selectOk]⟩
    | cons o2 rest2 =>
      rcases ih (by simp) (fun x hx => herr x (List.mem_cons_of_mem _ hx)) with ⟨e2, he2⟩
      exact ⟨e2, by simpa [selectOk] using he2⟩

theorem selectOk_firstOk {E A : Type} (outcomes : List (Except E A)) (a : A)
    (hfirst : firstOk outcomes = some a) :
    selectOk outcomes = some (Except.ok a) := by
  induction outcomes with
  | nil => simp [firstOk] at hfirst
  | cons o rest ih =>
    cases o with
    | ok b =>
      simp only [firstOk] at hfirst
      cases hfirst
      simp [selectOk]
    | error e =>
      simp only [firstOk] at hfirst
      have := ih hfirst
      cases rest with
      | nil => simp [firstOk] at hfirst
      | cons o2 rest2 => simpa [selectOk] using this

/-- Claim C3: in the get action, an empty provider set is a terminal error
(before any request), all requests failing is a terminal error, and a
successful race writes exactly the first successful payload, unmodified, to
standard output. -/
theorem claim_C3_getAction (name : String) (providers : List Nat)
    (outcomes : List (Except String (List Nat))) :
    (providers = [] →
      getAction name providers outcomes =
        Except.error ("Could not find provider for file " ++ name ++ ".")) ∧
    (providers ≠ [] → outcomes ≠ [] →
      (∀ o ∈ outcomes, ∃ e, o = Except.error e) →
      getAction name providers outcomes =
        Except.error "None of the providers returned file.") ∧
    (providers ≠ [] → ∀ fileContent, firstOk outcomes = some fileContent →
      getAction name providers outcomes = Except.ok fileContent) := by
  refine ⟨?_, ?_, ?_⟩
  · intro hp
    subst hp
    rfl
  · intro hp hne herr
    rcases selectOk_all_errors outcomes hne herr with ⟨e, he⟩
    simp [getAction, List.isEmpty_iff, hp, he]
  · intro hp fileContent hfirst
    simp [getAction, List.isEmpty_iff, hp, selectOk_firstOk outcomes fileContent hfirst]

/-- Witness for claim C3: one provider whose single request fails. -/
theorem claim_C3_witness :
    (([5] : List Nat) ≠ []) ∧
    (([Except.error "unreachable"] : List (Except String (List Nat))) ≠ []) ∧
    (∀ o ∈ ([Except.error "unreachable"] : List (Except String (List Nat))),
      ∃ e, o = Except.error e) ∧
    getAction "plan" [5] [Except.error "unreachable"] =
      Except.error "None of the providers returned file." :=
  ⟨List.cons_ne_nil _ _, List.cons_ne_nil _ _,
    by intro o ho; simp at ho; exact ⟨"unreachable", ho⟩,
    (claim_C3_getAction "plan" [5] [Except.error "unreachable"]).2.1
      (List.cons_ne_nil _ _) (List.cons_ne_nil _ _)
      (by intro o ho; simp at ho; exact ⟨"unreachable", ho⟩)⟩

/-- Claim C4: when the raced requests contain at least one success, the caller
receives the payload of the first request to succeed in completion order; the
failures completing before it and every outcome after it are discarded and no
error is surfaced. -/
theorem claim_C4_firstSuccess (name : String) (providers : List Nat)
    (failures : List String) (payload : List Nat)
    (later : List (Except String (List Nat))) (hp : providers ≠ []) :
    getAction name providers
        (failures.map Except.error ++ Except.ok payload :: later) =
      Except.ok payload := by
  have hfirst : firstOk (failures.map Except.error ++ Except.ok payload :: later) =
      some payload := by
    induction failures with
    | nil => rfl
    | cons f fs ih => simpa [firstOk] using ih
  simp [getAction, List.isEmpty_iff, hp, selectOk_firstOk _ _ hfirst]

/-- Witness for claim C4: two providers, the first request fails, the second
succeeds; the caller gets the successful payload. -/
theorem claim_C4_witness :
    (([5, 6] : List Nat) ≠ []) ∧
    getAction "plan" [5, 6]
        (["timeout"].map Except.error ++ Except.ok [10, 20] :: []) =
      Except.ok [10, 20] :=
  ⟨by decide, claim_C4_firstSuccess "plan" [5, 6] ["timeout"] [10, 20] [] (by decide)⟩

/-- An event delivered to the provide loop of `file-sharing.rs`.  The
`file_sharing_network` module's event enum is only matched here on its
`InboundRequest` variant; everything else falls to the loop's catch-all. -/
inductive FsEvent where
  | inboundRequest (request : String) (channel : Nat)
  | otherEvent
  deriving DecidableEq, Repr

/-- What one iteration of the provide loop does. -/
inductive ProvideAction where
  | reply (channel : Nat) (bytes : List Nat)
  | dropChannel (channel : Nat)
  | panics
  deriving DecidableEq, Repr

/-- One iteration of the `CliAction::Provide` loop in `file-sharing.rs`,
applied to the next item of the event stream (`none` is a closed stream):
an `InboundRequest` whose request equals the provided name is answered on its
reply channel with the file bytes; an `InboundRequest` for any other name is
left unanswered, dropping the reply channel; every other item hits the
`todo!` catch-all, which panics. -/
def provideStep (name : String) (fileBytes : List Nat) :
    Option FsEvent → ProvideAction
  | some (FsEvent.inboundRequest request channel) =>
    if request = name then ProvideAction.reply channel fileBytes
    else ProvideAction.dropChannel channel
  | _ => ProvideAction.panics

/-- Claim C9: any provide-loop stream item other than an `InboundRequest`
(including the end of the stream) makes the process panic through the
`todo!` branch. -/
theorem claim_C9_panics (name : String) (fileBytes : List Nat)
    (item : Option FsEvent)
    (h : ∀ request channel, item ≠ some (FsEvent.inboundRequest request channel)) :
    provideStep name fileBytes item = ProvideAction.panics := by
  cases item with
  | none => rfl
  | some e =>
    cases e with
    | inboundRequest request channel => exact absurd rfl (h request channel)
    | otherEvent => rfl

/-- Witness for claim C9: a closed event stream panics. -/
theorem claim_C9_witness :
    (∀ request channel,
      (none : Option FsEvent) ≠ some (FsEvent.inboundRequest request channel)) ∧
    provideStep "plan" [1] none = ProvideAction.panics :=
  ⟨fun _ _ h => Option.noConfusion h,
    claim_C9_panics "plan" [1] none (fun _ _ h => Option.noConfusion h)⟩

/-- Claim C10: an inbound request is answered with the file bytes on its reply
channel exactly when the requested name equals the provided name; any other
request drops the reply channel without a response. -/
theorem claim_C10_inbound (name : String) (fileBytes : List Nat)
    (request : String) (channel : Nat) :
    provideStep name fileBytes (some (FsEvent.inboundRequest request channel)) =
      (if request = name then ProvideAction.reply channel fileBytes
        else ProvideAction.dropChannel channel) ∧
    ((∃ bytes, provideStep name fileBytes
        (some (FsEvent.inboundRequest request channel)) =
          ProvideAction.reply channel bytes) ↔ request = name) := by
  refine ⟨rfl, ?_⟩
  constructor
  · rintro ⟨bytes, hb⟩
    by_contra hne
    simp [provideStep, hne] at hb
  · intro heq
    exact ⟨fileBytes, by simp [provideStep, heq]⟩

/-! ## chat.rs: mDNS handling in the event loop -/

/-- The state of the chat node touched by its event loop: the gossipsub
explicit-peer set, the set of peers the swarm has been asked to dial, the
subscribed topics, and the log of published payloads.  PeerIds are abstract
identifiers. -/
structure ChatState where
  explicitPeers : List Nat
  dialedPeers : List Nat
  subscribedTopics : List String
  publishedPayloads : List (List Nat)
  deriving DecidableEq, Repr

/-- Model of gossipsub `add_explicit_peer`: insert the peer into the
explicit-peer set (a set: inserting an existing member changes nothing). -/
def add_explicit_peer (peers : List Nat) (p : Nat) : List Nat :=
  if p ∈ peers then peers else peers ++ [p]

/-- Model of gossipsub `remove_explicit_peer`: remove the peer from the
explicit-peer set. -/
def remove_explicit_peer (peers : List Nat) (p : Nat) : List Nat :=
  peers.filter (fun q => q ≠ p)

/-- An mDNS behaviour event as matched in the chat node's event loop: a list
of discovered or expired (peer, address) pairs, of which only the PeerId is
used. -/
inductive MdnsEvent where
  | discovered (peers : List Nat)
  | expired (peers : List Nat)
  deriving DecidableEq, Repr

/-- The two mDNS arms of the chat node's event loop in `chat.rs`: a
`Discovered` list adds each listed peer to the gossipsub explicit-peer set, an
`Expired` list removes each listed peer; nothing else in the state is
touched. -/
def handleMdnsEvent (s : ChatState) : MdnsEvent → ChatState
  | MdnsEvent.discovered peers =>
    { s with explicitPeers := peers.foldl add_explicit_peer s.explicitPeers }
  | MdnsEvent.expired peers =>
    { s with explicitPeers := peers.foldl remove_explicit_peer s.explicitPeers }

theorem mem_foldl_add_explicit_peer (l : List Nat) (peers : List Nat) (p : Nat) :
    p ∈ l.foldl add_explicit_peer peers ↔ p ∈ peers ∨ p ∈ l := by
  induction l generalizing peers with
  | nil => simp
  | cons q rest ih =>
    simp only [List.foldl_cons, ih, add_explicit_peer]
    by_cases hq : q ∈ peers
    · simp only [if_pos hq]
      constructor
      · rintro (h | h)
        · exact Or.inl h
        · exact Or.inr (List.mem_cons_of_mem q h)
      · rintro (h | h)
        · exact Or.inl h
        · rcases List.mem_cons.mp h with rfl | h
          · exact Or.inl hq
          · exact Or.inr h
    · simp only [if_neg hq, List.mem_append, List.mem_singleton]
      constructor
      · rintro ((h | h) | h)
        · exact Or.inl h
        · exact Or.inr (by simp [h])
        · exact Or.inr (List.mem_cons_of_mem q h)
      · rintro (h | h)
        · exact Or.inl (Or.inl h)
        · rcases List.mem_cons.mp h with rfl | h
          · exact Or.inl (Or.inr rfl)
          · exact Or.inr h

theorem mem_foldl_remove_explicit_peer (l : List Nat) (peers : List Nat) (p : Nat) :
    p ∈ l.foldl remove_explicit_peer peers ↔ p ∈ peers ∧ p ∉ l := by
  induction l generalizing peers with
  | nil => simp
  | cons q rest ih =>
    simp only [List.foldl_cons, ih, remove_explicit_peer, List.mem_filter,
      decide_eq_true_eq, List.mem_cons]
    constructor
    · rintro ⟨⟨hp, hne⟩, hnotin⟩
      exact ⟨hp, by rintro (rfl | h); exact hne rfl; exact hnotin h⟩
    · rintro ⟨hp, hnot⟩
      exact ⟨⟨hp, fun h => hnot (Or.inl h)⟩, fun h => hnot (Or.inr h)⟩

/-- Claim C7: the chat node's mDNS arms add every discovered peer to the
gossipsub explicit-peer set and remove every expired peer from it; no peer is
dialed and no other part of the state changes. -/
theorem claim_C7_mdns (s : ChatState) (ev : MdnsEvent) :
    (handleMdnsEvent s ev).dialedPeers = s.dialedPeers ∧
    (handleMdnsEvent s ev).subscribedTopics = s.subscribedTopics ∧
    (handleMdnsEvent s ev).publishedPayloads = s.publishedPayloads ∧
    (∀ p, p ∈ (handleMdnsEvent s ev).explicitPeers ↔
      match ev with
      | MdnsEvent.discovered peers => p ∈ s.explicitPeers ∨ p ∈ peers
      | MdnsEvent.expired peers => p ∈ s.explicitPeers ∧ p ∉ peers) := by
  cases ev with
  | discovered peers =>
    exact ⟨rfl, rfl, rfl, fun p => mem_foldl_add_explicit_peer peers s.explicitPeers p⟩
  | expired peers =>
    exact ⟨rfl, rfl, rfl, fun p => mem_foldl_remove_explicit_peer peers s.explicitPeers p⟩

/-! ## utils.rs `get_pre_shared_key` and ipfs-pubsub.rs startup -/

/-- Result of reading a file as a string, as distinguished by
`get_pre_shared_key` (`fs::read_to_string`): contents, a not-found error, or
any other I/O error. -/
inductive FsReadResult where
  | ok (text : String)
  | notFound
  | otherError (msg : String)
  deriving DecidableEq, Repr

/-- The swarm-key path resolution in `get_pre_shared_key` (`utils.rs`): the
`IPFS_PATH` environment variable if set, otherwise the hard-coded default
`/usr/local/bin/.ipfs`, joined with `swarm.key`. -/
def swarmKeyPath (ipfsPathEnv : Option String) : String :=
  (match ipfsPathEnv with
   | some p => p
   | none => "/usr/local/bin/.ipfs") ++ "/swarm.key"

/-- `get_pre_shared_key` from `utils.rs`, over a model file system mapping
paths to read results: file contents yield `Ok(Some(text))`, a missing file
yields `Ok(None)`, any other I/O error propagates as an error. -/
def get_pre_shared_key (ipfsPathEnv : Option String)
    (fs : String → FsReadResult) : Except String (Option String) :=
  match fs (swarmKeyPath ipfsPathEnv) with
  | FsReadResult.ok text => Except.ok (some text)
  | FsReadResult.notFound => Except.ok none
  | FsReadResult.otherError e => Except.error e

def hexDigitVal (c : Char) : Option Nat :=
  if '0' ≤ c ∧ c ≤ '9' then some (c.toNat - '0'.toNat)
  else if 'a' ≤ c ∧ c ≤ 'f' then some (c.toNat - 'a'.toNat + 10)
  else if 'A' ≤ c ∧ c ≤ 'F' then some (c.toNat - 'A'.toNat + 10)
  else none

/-- Decode a hex string two characters per byte. -/
def hexDecode : List Char → Option (List Nat)
  | [] => some []
  | [_] => none
  | hi :: lo :: rest =>
    match hexDigitVal hi, hexDigitVal lo, hexDecode rest with
    | some h, some l, some bytes => some ((h * 16 + l) :: bytes)
    | _, _, _ => none

/-- Model of `libp2p::pnet::PreSharedKey::from_str` (the `swarm.key` text
format): first line the key-type header `/key/swarm/psk/1.0.0/`, second line
the encoding `/base16/`, third line exactly 64 hex characters decoding to the
32-byte key.  (Line splitting is modelled as splitting at `\n`; the carriage
return handling of Rust `str::lines` is abstracted.) -/
def preSharedKeyFromStr (text : String) : Option (List Nat) :=
  match splitOnChar (Char.ofNat 10) text.data with
  | l0 :: l1 :: l2 :: _ =>
    if l0 = "/key/swarm/psk/1.0.0/".data ∧ l1 = "/base16/".data ∧ l2.length = 64 then
      hexDecode l2
    else none
  | _ => none

/-- The transport admission mode chosen by `main` in `ipfs-pubsub.rs`: with a
pre-shared key the TCP transport is wrapped in the private-network handshake
(`PnetConfig`), without one the plain public transport is used. -/
inductive TransportMode where
  | privateNet (key : List Nat)
  | publicNet
  deriving DecidableEq, Repr

/-- The pre-shared-key startup sequence of `main` in `ipfs-pubsub.rs`:
`get_pre_shared_key()?` then `.map(PreSharedKey::from_str).transpose()?`,
then selecting the private or public transport.  A read error or a key that
fails to parse aborts startup with an error. -/
def startupTransport (ipfsPathEnv : Option String)
    (fs : String → FsReadResult) : Except String TransportMode :=
  match get_pre_shared_key ipfsPathEnv fs with
  | Except.error e => Except.error e
  | Except.ok none => Except.ok TransportMode.publicNet
  | Except.ok (some text) =>
    match preSharedKeyFromStr text with
    | some key => Except.ok (TransportMode.privateNet key)
    | none => Except.error "invalid swarm key file"

/-- Claim C8: if the swarm.key file at the resolved path does not exist the
node starts in public mode with no key and no error; if it exists and parses,
its key drives the private-network admission check; if it exists but does not
parse, startup fails with an error. -/
theorem claim_C8_psk (ipfsPathEnv : Option String) (fs : String → FsReadResult) :
    (fs (swarmKeyPath ipfsPathEnv) = FsReadResult.notFound →
      get_pre_shared_key ipfsPathEnv fs = Except.ok none ∧
      startupTransport ipfsPathEnv fs = Except.ok TransportMode.publicNet) ∧
    (∀ text, fs (swarmKeyPath ipfsPathEnv) = FsReadResult.ok text →
      (∀ key, preSharedKeyFromStr text = some key →
        startupTransport ipfsPathEnv fs =
          Except.ok (TransportMode.privateNet key)) ∧
      (preSharedKeyFromStr text = none →
        ∃ e, startupTransport ipfsPathEnv fs = Except.error e)) := by
  constructor
  · intro hnf
    constructor
    · simp [get_pre_shared_key, hnf]
    · simp [startupTransport, get_pre_shared_key, hnf]
  · intro text hok
    constructor
    · intro key hkey
      simp [startupTransport, get_pre_shared_key, hok, hkey]
    · intro hbad
      exact ⟨"invalid swarm key file",
        by simp [startupTransport, get_pre_shared_key, hok, hbad]⟩

/-- Witness for claim C8: a missing swarm.key file, and a well-formed one. -/
theorem claim_C8_witness :
    ((fun _ : String => FsReadResult.notFound) (swarmKeyPath none) =
      FsReadResult.notFound) ∧
    (get_pre_shared_key none (fun _ => FsReadResult.notFound) = Except.ok none ∧
      startupTransport none (fun _ => FsReadResult.notFound) =
        Except.ok TransportMode.publicNet) :=
  ⟨rfl, (claim_C8_psk none (fun _ => FsReadResult.notFound)).1 rfl⟩

end PlayP2p
